import Mathlib

/-!
Verification development for the Git repository acquisition and
project-profiling subsystem of the `learn-agents` repository
(`adk/agent-with-mcp/tools/`).

The Python sources are shallowly embedded:

* filesystem trees become the mutual inductive `FSTree`/`FSForest`
  (a file node carries its name, line count and byte size; a directory
  node carries its name and children);
* `os.walk` traversals become structural recursions over the tree,
  with the same pruning / skipping rules as the source;
* Python `str` operations that do not reduce well in the kernel
  (`lower`, `split`, `strip`, `startswith`, `endswith`, substring
  tests) are re-implemented over `List Char` (ASCII-faithful);
* Python `float` arithmetic is modelled with `ℚ` (exact arithmetic;
  IEEE rounding noise is out of scope for these claims);
* external collaborators (GitPython clone, `urllib.parse`, `hashlib`,
  `cryptography.Fernet`, the hosting APIs, wall-clock time) are
  explicit oracle parameters, so every embedded operation stays a
  total, executable function.
-/

/-! ## Char-list string utilities (Python `str` semantics, ASCII) -/

/-- Substring test: Python `pat in s`. -/
def strContainsSub (s pat : String) : Bool := decide (pat.toList <:+: s.toList)

/-- Python `s.startswith(pat)`. -/
def strStarts (s pat : String) : Bool := decide (pat.toList <+: s.toList)

/-- Python `s.endswith(pat)`. -/
def strEnds (s pat : String) : Bool := decide (pat.toList <:+ s.toList)

/-- ASCII lower-casing of one character (Python `str.lower` restricted to ASCII). -/
def lcChar (c : Char) : Char :=
  let n := c.toNat
  if 65 ≤ n ∧ n ≤ 90 then Char.ofNat (n + 32) else c

/-- Python `s.lower()` (ASCII). -/
def lowerS (s : String) : String := String.mk (s.toList.map lcChar)

/-- Python whitespace test for `str.strip()` (ASCII whitespace). -/
def isSpaceChar (c : Char) : Bool :=
  c.toNat = 32 ∨ c.toNat = 9 ∨ c.toNat = 10 ∨ c.toNat = 13 ∨ c.toNat = 12 ∨ c.toNat = 11

/-- Python `s.strip()` on a char list. -/
def stripWs (l : List Char) : List Char :=
  ((l.dropWhile isSpaceChar).reverse.dropWhile isSpaceChar).reverse

/-- Python `s.strip(c)` for a single strip character. -/
def stripChar (c : Char) (l : List Char) : List Char :=
  ((l.dropWhile (fun x => x = c)).reverse.dropWhile (fun x => x = c)).reverse

/-- Python `s.split(c)` for a one-character separator (never returns `[]`). -/
def splitOnChar (c : Char) : List Char → List (List Char)
  | [] => [[]]
  | x :: xs =>
    let r := splitOnChar c xs
    if x = c then [] :: r
    else
      match r with
      | [] => [[x]]
      | l :: ls => (x :: l) :: ls

/-- Last element of a split (Python `split(...)[-1]`); the split is never empty. -/
def lastPart (l : List (List Char)) : List Char := l.getLastD []

/-- Python `s.replace(pat, rep)` (all non-overlapping occurrences, left to right),
with an explicit fuel so the recursion is structural; `pat` is assumed non-empty
(the embedded code only replaces the literal scheme prefix). -/
def replaceAllAux (pat rep : List Char) : Nat → List Char → List Char
  | 0, s => s
  | _ + 1, [] => []
  | fuel + 1, c :: cs =>
    if pat ≠ [] ∧ pat <+: (c :: cs) then
      rep ++ replaceAllAux pat rep fuel ((c :: cs).drop pat.length)
    else
      c :: replaceAllAux pat rep fuel cs

/-- Python `s.replace(pat, rep)` for non-empty `pat`. -/
def replaceAll (s pat rep : String) : String :=
  String.mk (replaceAllAux pat.toList rep.toList s.toList.length s.toList)

/-- Stable insertion used by `sortStable`: `x` goes before the first element it
relates to by `le`, hence after all earlier tied elements. -/
def insertStable (le : α → α → Bool) (x : α) : List α → List α
  | [] => [x]
  | y :: ys => if le x y then x :: y :: ys else y :: insertStable le x ys

/-- Stable sort with respect to a total boolean preorder `le`.  Python's
`sorted`/`list.sort` are stable, and any two stable sorts for the same total
preorder agree, so this models them exactly. -/
def sortStable (le : α → α → Bool) : List α → List α
  | [] => []
  | x :: xs => insertStable le x (sortStable le xs)

/-- Code-point comparison of strings (Python string `<=`). -/
def charListLe : List Char → List Char → Bool
  | [], _ => true
  | _ :: _, [] => false
  | a :: as, b :: bs =>
    if a.toNat < b.toNat then true
    else if b.toNat < a.toNat then false
    else charListLe as bs

/-- Python `sorted` on strings. -/
def sortStrings (l : List String) : List String :=
  sortStable (fun a b => charListLe a.toList b.toList) l

/-- First-occurrence deduplication, modelling Python `list(set(xs))` (whose
order is unspecified; only the underlying set of elements is relied upon). -/
def dedupKeepFirst [DecidableEq α] : List α → List α
  | [] => []
  | x :: xs => if x ∈ xs then dedupKeepFirst xs else x :: dedupKeepFirst xs

theorem mem_dedupKeepFirst [DecidableEq α] (a : α) :
    ∀ l : List α, a ∈ dedupKeepFirst l ↔ a ∈ l := by
  intro l
  induction l with
  | nil => simp [dedupKeepFirst]
  | cons x xs ih =>
    by_cases hx : x ∈ xs
    · simp only [dedupKeepFirst, if_pos hx, ih, List.mem_cons]
      constructor
      · exact fun h => Or.inr h
      · rintro (rfl | h)
        · exact hx
        · exact h
    · simp [dedupKeepFirst, if_neg hx, ih]

theorem insertStable_perm (le : α → α → Bool) (x : α) :
    ∀ l : List α, List.Perm (insertStable le x l) (x :: l) := by
  intro l
  induction l with
  | nil => simp [insertStable]
  | cons y ys ih =>
    by_cases h : le x y
    · simp [insertStable, h]
    · simp only [insertStable, if_neg h]
      exact (ih.cons y).trans (List.Perm.swap x y ys)

theorem sortStable_perm (le : α → α → Bool) :
    ∀ l : List α, List.Perm (sortStable le l) l := by
  intro l
  induction l with
  | nil => simp [sortStable]
  | cons x xs ih =>
    exact (insertStable_perm le x (sortStable le xs)).trans (ih.cons x)

/-! ## Filesystem trees

`FSTree.file name lines size` is a regular file with its `line count` (as
counted by `_count_lines`) and byte size; `FSTree.dir name children` is a
directory.  The mutual `FSForest` keeps all recursions structural, so every
embedded traversal evaluates inside the kernel. -/

mutual
inductive FSTree where
  | file (name : String) (lines : Nat) (size : Nat) : FSTree
  | dir (name : String) (children : FSForest) : FSTree
inductive FSForest where
  | fnil : FSForest
  | fcons (t : FSTree) (ts : FSForest) : FSForest
end

/-- Build a forest from a list of trees (concrete-tree convenience). -/
def FSForest.ofList : List FSTree → FSForest
  | [] => .fnil
  | t :: ts => .fcons t (FSForest.ofList ts)

/-! ## Language Identifier (`tools/language_identifier.py`)

Embedding of `LanguageIdentifierAgent`: the static extension and config
tables, the pruned extension-scan walk (`_analyze_file_extensions`), the
config-file walk (`_analyze_config_files`), the confidence score
(`_calculate_confidence`) and the `LanguageInfo` list construction
(`_create_language_info_list`).  Framework detection, build tool and package
manager extraction and project-type classification are not needed by any
claim and are not modelled. -/

namespace LangId

/-- Table `self.language_extensions` (insertion order preserved). -/
def language_extensions : List (String × List String) :=
  [ ("Python", [".py", ".pyw", ".pyi"])
  , ("Java", [".java"])
  , ("JavaScript", [".js", ".jsx", ".mjs"])
  , ("TypeScript", [".ts", ".tsx"])
  , ("Dart", [".dart"])
  , ("Kotlin", [".kt", ".kts"])
  , ("C++", [".cpp", ".cxx", ".cc", ".c++", ".hpp", ".hxx", ".h++"])
  , ("C", [".c", ".h"])
  , ("C#", [".cs"])
  , ("Go", [".go"])
  , ("Rust", [".rs"])
  , ("Ruby", [".rb"])
  , ("PHP", [".php"])
  , ("Swift", [".swift"])
  , ("Objective-C", [".m", ".mm", ".h"])
  , ("Shell", [".sh", ".bash", ".zsh"])
  , ("HTML", [".html", ".htm"])
  , ("CSS", [".css", ".scss", ".sass", ".less"])
  , ("XML", [".xml", ".xsd", ".xsl"])
  , ("JSON", [".json"])
  , ("YAML", [".yml", ".yaml"])
  , ("Markdown", [".md", ".markdown"])
  , ("SQL", [".sql"]) ]

/-- Table `self.config_files` (insertion order preserved). -/
def config_files : List (String × List String) :=
  [ ("Python", ["requirements.txt", "pyproject.toml", "setup.py", "setup.cfg",
                "Pipfile", "poetry.lock", "conda.yml", "environment.yml"])
  , ("Java", ["pom.xml", "build.gradle", "gradle.properties", "ivy.xml",
              "ant.xml", "build.xml"])
  , ("JavaScript", ["package.json", "package-lock.json", "yarn.lock",
                    "webpack.config.js", "babel.config.js", "tsconfig.json"])
  , ("TypeScript", ["tsconfig.json", "package.json", "webpack.config.ts"])
  , ("Dart", ["pubspec.yaml", "pubspec.lock", "analysis_options.yaml"])
  , ("Kotlin", ["build.gradle.kts", "settings.gradle.kts", "pom.xml"])
  , ("C++", ["CMakeLists.txt", "Makefile", "configure.ac", "meson.build"])
  , ("C", ["Makefile", "CMakeLists.txt", "configure.ac"])
  , ("C#", ["*.csproj", "*.sln", "packages.config", "project.json"])
  , ("Go", ["go.mod", "go.sum", "Gopkg.toml", "Gopkg.lock"])
  , ("Rust", ["Cargo.toml", "Cargo.lock"])
  , ("Ruby", ["Gemfile", "Gemfile.lock", ".gemspec"])
  , ("PHP", ["composer.json", "composer.lock"])
  , ("Swift", ["Package.swift", "*.xcodeproj", "*.xcworkspace"]) ]

/-- Python `os.path.splitext(file)[1]`: the extension starts at the last dot of the
basename, ignoring any leading run of dots. -/
def extOf (name : String) : String :=
  let cs := name.toList
  let k := (cs.takeWhile (fun c => c = '.')).length
  let rest := cs.drop k
  if rest.contains '.' then
    String.mk ('.' :: (rest.reverse.takeWhile (fun c => c ≠ '.')).reverse)
  else ""

/-- First language of the table whose extension list contains `ext`
(the inner `for lang, extensions ...: if file_ext in extensions: ...; break`). -/
def firstLanguageFor (ext : String) : Option String :=
  (language_extensions.find? (fun p => p.2.contains ext)).map (fun p => p.1)

/-- Directory skip rule of `_analyze_file_extensions`: hidden directories and
the fixed non-source list are pruned. -/
def liSkipDir (d : String) : Bool :=
  strStarts d "." ||
    ["node_modules", "__pycache__", "venv", "env", "build", "dist", "target", ".git"].contains d

/-- One file of the extension scan: hidden files are skipped, otherwise the
first matching language receives the file (with its line and byte counts). -/
def fileMatchEntry (n : String) (lines size : Nat) : List (String × Nat × Nat) :=
  if strStarts n "." then []
  else
    match firstLanguageFor (lowerS (extOf n)) with
    | some lang => [(lang, lines, size)]
    | none => []

mutual
/-- Extension-scan walk over one entry (directories pruned by `liSkipDir`). -/
def mfT : FSTree → List (String × Nat × Nat)
  | .file n l s => fileMatchEntry n l s
  | .dir d cs => if liSkipDir d then [] else mfF cs
/-- Extension-scan walk over a forest. -/
def mfF : FSForest → List (String × Nat × Nat)
  | .fnil => []
  | .fcons t ts => mfT t ++ mfF ts
end

/-- All `(language, lines, size)` matches of `_analyze_file_extensions` below
the repository root (the root directory itself is never pruned). -/
def matchedFiles : FSTree → List (String × Nat × Nat)
  | .file _ _ _ => []
  | .dir _ cs => mfF cs

/-- Per-language aggregation of `_analyze_file_extensions`: table order, one
`(name, file_count, total_lines, total_size)` entry per language, languages
with no files dropped. -/
def language_stats (t : FSTree) : List (String × Nat × Nat × Nat) :=
  (language_extensions.map (fun p =>
    let ms := (matchedFiles t).filter (fun m => m.1 == p.1)
    (p.1, ms.length, (ms.map (fun m => m.2.1)).sum, (ms.map (fun m => m.2.2)).sum))).filter
    (fun s => decide (0 < s.2.1))

/-- Does `file` match `pattern` (wildcard patterns start with `*` and compare
by suffix, otherwise exact equality)? -/
def configPatternMatch (file pattern : String) : Bool :=
  if strStarts pattern "*" then strEnds file (String.mk (pattern.toList.drop 1))
  else file == pattern

/-- All `(language, filename)` pairs a single filename contributes to
`found_configs` (every matching pattern of every language appends). -/
def configMatchesFile (file : String) : List (String × String) :=
  config_files.flatMap (fun p => (p.2.filter (configPatternMatch file)).map (fun _ => (p.1, file)))

/-- File names at one directory level. -/
def levelFileNames : FSForest → List String
  | .fnil => []
  | .fcons (.file n _ _) ts => n :: levelFileNames ts
  | .fcons (.dir _ _) ts => levelFileNames ts

mutual
/-- Config-file walk over one entry rooted at path `q` (no pruning; a root
whose accumulated path contains `.git` contributes no files, mirroring
`if '.git' in root: continue`). -/
def cwT (q : String) : FSTree → List (String × String)
  | .file _ _ _ => []
  | .dir d cs =>
    (if strContainsSub (q ++ "/" ++ d) ".git" then []
     else (levelFileNames cs).flatMap configMatchesFile) ++ cwF (q ++ "/" ++ d) cs
/-- Config-file walk over the directory children of a root at path `q`. -/
def cwF (q : String) : FSForest → List (String × String)
  | .fnil => []
  | .fcons t ts => cwT q t ++ cwF q ts
end

/-- Embeds `_analyze_config_files(path)` on the tree rooted at string path `p`. -/
def analyze_config_files (p : String) (t : FSTree) : List (String × String) :=
  match t with
  | .file _ _ _ => []
  | .dir _ cs =>
    (if strContainsSub p ".git" then []
     else (levelFileNames cs).flatMap configMatchesFile) ++ cwF p cs

/-- Embeds `_calculate_confidence` over exact rationals: +0.5 for matched files,
+0.3 for config files, +0.1 for more than one language, capped at 1.0. -/
def calculate_confidence (stats : List (String × Nat × Nat × Nat))
    (configs : List (String × String)) : ℚ :=
  let c1 : ℚ := if 0 < (stats.map (fun s => s.2.1)).sum then 1/2 else 0
  let c2 : ℚ := if configs ≠ [] then c1 + 3/10 else c1
  let c3 : ℚ := if 1 < stats.length then c2 + 1/10 else c2
  min c3 1

/-- Dataclass `LanguageInfo` (framework/version tags stay `None` in
`_create_language_info_list` and are omitted). -/
structure LanguageInfo where
  name : String
  percentage : ℚ
  file_count : Nat
  total_lines : Nat
deriving DecidableEq

/-- Python `round(x, 2)`: round to two decimal places (exact-rational model of the
Python float rounding). -/
def round2 (q : ℚ) : ℚ := ((round (q * 100) : ℤ) : ℚ) / 100

/-- Embeds `_create_language_info_list`: percentage = file share × 100 rounded to two
decimals, sorted descending by percentage (stable, as Python's sort). -/
def create_language_info_list (stats : List (String × Nat × Nat × Nat)) :
    List LanguageInfo :=
  let total : Nat := (stats.map (fun s => s.2.1)).sum
  if total = 0 then []
  else
    sortStable (fun a b => decide (b.percentage ≤ a.percentage))
      (stats.map (fun s =>
        { name := s.1
          percentage := round2 ((s.2.1 : ℚ) / (total : ℚ) * 100)
          file_count := s.2.1
          total_lines := s.2.2.1 }))

/-- The fields of `ProjectLanguageProfile` the claims are about (frameworks,
build tools, package managers and project type are independent of them). -/
structure ProjectLanguageProfile where
  primary_language : String
  languages : List LanguageInfo
  confidence_score : ℚ

/-- Embeds `identify_language(local_path)` on an existing tree `t` rooted at path
`p` (the missing-path branch raises and is outside these claims). -/
def identify_language (p : String) (t : FSTree) : ProjectLanguageProfile :=
  let stats := language_stats t
  let configs := analyze_config_files p t
  let languages := create_language_info_list stats
  { primary_language := match languages with
      | [] => "Unknown"
      | l :: _ => l.name
    languages := languages
    confidence_score := calculate_confidence stats configs }

end LangId

namespace LangId

/-! ### Supporting lemmas for the Language Identifier claims -/

theorem fileMatchEntry_lang_mem (n : String) (l s : Nat) :
    ∀ m ∈ fileMatchEntry n l s, m.1 ∈ language_extensions.map Prod.fst := by
  intro m hm
  unfold fileMatchEntry at hm
  split at hm
  · simp at hm
  · split at hm
    next lang hf =>
      simp only [List.mem_singleton] at hm
      subst hm
      unfold firstLanguageFor at hf
      rcases hfind : language_extensions.find? (fun p => p.2.contains (lowerS (extOf n)))
        with _ | p
      · rw [hfind] at hf; simp at hf
      · rw [hfind] at hf
        simp only [Option.map] at hf
        cases hf
        exact List.mem_map_of_mem Prod.fst (List.mem_of_find?_eq_some hfind)
    next hf => simp at hm

mutual
theorem mfT_lang_mem : (t : FSTree) →
    ∀ m ∈ mfT t, m.1 ∈ language_extensions.map Prod.fst
  | .file n l s => by
    intro m hm
    rw [mfT] at hm
    exact fileMatchEntry_lang_mem n l s m hm
  | .dir d cs => by
    intro m hm
    rw [mfT] at hm
    by_cases h : liSkipDir d = true
    · simp [h] at hm
    · simp only [h, Bool.false_eq_true, if_false] at hm
      exact mfF_lang_mem cs m hm
theorem mfF_lang_mem : (f : FSForest) →
    ∀ m ∈ mfF f, m.1 ∈ language_extensions.map Prod.fst
  | .fnil => by
    intro m hm
    rw [mfF] at hm
    simp at hm
  | .fcons t ts => by
    intro m hm
    rw [mfF] at hm
    rcases List.mem_append.mp hm with h | h
    · exact mfT_lang_mem t m h
    · exact mfF_lang_mem ts m h
end

theorem matchedFiles_lang_mem (t : FSTree) :
    ∀ m ∈ matchedFiles t, m.1 ∈ language_extensions.map Prod.fst := by
  intro m hm
  cases t with
  | file n l s => simp [matchedFiles] at hm
  | dir d cs => exact mfF_lang_mem cs m hm

theorem language_stats_pos (t : FSTree) :
    ∀ s ∈ language_stats t, 0 < s.2.1 := by
  intro s hs
  unfold language_stats at hs
  have := (List.mem_filter.mp hs).2
  exact of_decide_eq_true this

/-- Some file matched the extension scan iff some language survives the
zero-file filter. -/
theorem language_stats_ne_nil_iff (t : FSTree) :
    language_stats t ≠ [] ↔ matchedFiles t ≠ [] := by
  constructor
  · intro h hm
    apply h
    unfold language_stats
    rw [List.filter_eq_nil_iff]
    intro s hs
    rcases List.mem_map.mp hs with ⟨p, _, hp⟩
    subst hp
    simp [hm]
  · intro h hne
    rcases List.exists_mem_of_ne_nil _ h with ⟨m, hm⟩
    rcases List.mem_map.mp (matchedFiles_lang_mem t m hm) with ⟨p, hpmem, hp1⟩
    have hfmem : m ∈ (matchedFiles t).filter (fun x => x.1 == p.1) := by
      rw [List.mem_filter]
      exact ⟨hm, by simp [hp1]⟩
    have hlen : 0 < ((matchedFiles t).filter (fun x => x.1 == p.1)).length :=
      List.length_pos.mpr (List.ne_nil_of_mem hfmem)
    have : (p.1, ((matchedFiles t).filter (fun x => x.1 == p.1)).length,
        (((matchedFiles t).filter (fun x => x.1 == p.1)).map (fun m => m.2.1)).sum,
        (((matchedFiles t).filter (fun x => x.1 == p.1)).map (fun m => m.2.2)).sum)
        ∈ language_stats t := by
      unfold language_stats
      rw [List.mem_filter]
      constructor
      · exact List.mem_map.mpr ⟨p, hpmem, rfl⟩
      · exact decide_eq_true hlen
    rw [hne] at this
    simp at this

/-- The total file count of `_calculate_confidence` is positive iff some
language survived. -/
theorem language_stats_total_pos_iff (t : FSTree) :
    0 < ((language_stats t).map (fun s => s.2.1)).sum ↔ language_stats t ≠ [] := by
  constructor
  · intro h he
    rw [he] at h
    simp at h
  · intro h
    rcases List.exists_mem_of_ne_nil _ h with ⟨s, hs⟩
    calc 0 < s.2.1 := language_stats_pos t s hs
    _ ≤ ((language_stats t).map (fun x => x.2.1)).sum :=
        List.single_le_sum (by simp) _ (List.mem_map_of_mem _ hs)

theorem abs_round2_sub_le (x : ℚ) : |round2 x - x| ≤ 1/200 := by
  unfold round2
  have h := abs_sub_round (x * 100)
  rw [abs_sub_comm] at h
  have he : ((round (x * 100) : ℤ) : ℚ) / 100 - x = (((round (x * 100) : ℤ) : ℚ) - x * 100) / 100 := by
    ring
  rw [he, abs_div]
  have h100 : |(100 : ℚ)| = 100 := by norm_num
  rw [h100]
  calc |((round (x * 100) : ℤ) : ℚ) - x * 100| / 100 ≤ (1/2) / 100 := by gcongr
  _ = 1/200 := by norm_num

theorem list_abs_sum_sub_le (f g : α → ℚ) (c : ℚ) :
    ∀ l : List α, (∀ x ∈ l, |f x - g x| ≤ c) →
      |(l.map f).sum - (l.map g).sum| ≤ (l.length : ℚ) * c := by
  intro l
  induction l with
  | nil => simp
  | cons x xs ih =>
    intro hb
    have hx := hb x (List.mem_cons_self x xs)
    have hxs := ih (fun y hy => hb y (List.mem_cons_of_mem x hy))
    have hsplit : (f x + ((xs.map f).sum : ℚ)) - (g x + (xs.map g).sum) =
        (f x - g x) + ((xs.map f).sum - (xs.map g).sum) := by ring
    simp only [List.map_cons, List.sum_cons, List.length_cons]
    rw [hsplit]
    calc |(f x - g x) + ((xs.map f).sum - (xs.map g).sum)|
        ≤ |f x - g x| + |(xs.map f).sum - (xs.map g).sum| := abs_add _ _
    _ ≤ c + (xs.length : ℚ) * c := add_le_add hx hxs
    _ = ((xs.length : ℚ) + 1) * c := by ring
    _ = (((xs.length : ℕ) + 1 : ℕ) : ℚ) * c := by push_cast; ring

theorem list_share_sum (l : List ℕ) (T : ℚ) (hT : T ≠ 0)
    (h : ((l.sum : ℕ) : ℚ) = T) :
    (l.map (fun n : ℕ => (n : ℚ) / T * 100)).sum = 100 := by
  have hfun : (fun n : ℕ => (n : ℚ) / T * 100) = fun n : ℕ => (n : ℚ) * (100 / T) := by
    funext n; ring
  rw [hfun, List.sum_map_mul_right, ← Nat.cast_list_sum, h]
  field_simp

theorem create_language_info_list_sums (stats : List (String × Nat × Nat × Nat))
    (hT : (stats.map (fun s => s.2.1)).sum ≠ 0) :
    ((create_language_info_list stats).map (fun e => e.file_count)).sum
        = (stats.map (fun s => s.2.1)).sum ∧
    ∀ e ∈ create_language_info_list stats,
      e.percentage = round2 ((e.file_count : ℚ)
        / (((stats.map (fun s => s.2.1)).sum : ℕ) : ℚ) * 100) := by
  have hL : create_language_info_list stats =
      sortStable (fun a b => decide (b.percentage ≤ a.percentage))
        (stats.map (fun s =>
          { name := s.1
            percentage := round2 ((s.2.1 : ℚ) / (((stats.map (fun x => x.2.1)).sum : ℕ) : ℚ) * 100)
            file_count := s.2.1
            total_lines := s.2.2.1 })) := by
    unfold create_language_info_list
    rw [if_neg hT]
  have hperm := sortStable_perm (fun a b : LanguageInfo => decide (b.percentage ≤ a.percentage))
    (stats.map (fun s =>
      { name := s.1
        percentage := round2 ((s.2.1 : ℚ) / (((stats.map (fun x => x.2.1)).sum : ℕ) : ℚ) * 100)
        file_count := s.2.1
        total_lines := s.2.2.1 }))
  constructor
  · rw [hL]
    have h1 := (hperm.map (fun e => e.file_count)).sum_eq
    rw [h1, List.map_map]
    rfl
  · intro e he
    rw [hL] at he
    have hmem := hperm.mem_iff.mp he
    rcases List.mem_map.mp hmem with ⟨s, _, hs⟩
    subst hs
    rfl

/-- Claim C1 (amended).  For every tree on which `identify_language` returns a
non-empty language list, the underlying file-count shares
(`file_count / total × 100`) sum to exactly 100; the stored `percentage`
fields are those shares rounded to two decimals, so their sum equals 100 only
up to rounding error, bounded by `n/200` for `n` languages (the claim's
"sum to exactly 100" fails for the rounded fields, see the counterexample). -/
theorem identify_language_percentage_sum (p : String) (t : FSTree)
    (h : (identify_language p t).languages ≠ []) :
    ((identify_language p t).languages.map (fun e =>
        (e.file_count : ℚ)
          / ((((identify_language p t).languages.map (fun x => x.file_count)).sum : ℕ) : ℚ)
          * 100)).sum = 100 ∧
    |((identify_language p t).languages.map (fun e => e.percentage)).sum - 100|
      ≤ (((identify_language p t).languages.length : ℕ) : ℚ) / 200 := by
  have hlang : (identify_language p t).languages
      = create_language_info_list (language_stats t) := rfl
  rw [hlang] at h ⊢
  have hT : ((language_stats t).map (fun s => s.2.1)).sum ≠ 0 := by
    intro h0
    apply h
    unfold create_language_info_list
    rw [if_pos h0]
  obtain ⟨hsum, hpct⟩ := create_language_info_list_sums (language_stats t) hT
  have hmm : (create_language_info_list (language_stats t)).map (fun e =>
      (e.file_count : ℚ)
        / ((((create_language_info_list (language_stats t)).map (fun x => x.file_count)).sum : ℕ) : ℚ)
        * 100)
      = ((create_language_info_list (language_stats t)).map (fun e => e.file_count)).map
        (fun n : ℕ => (n : ℚ)
          / ((((create_language_info_list (language_stats t)).map (fun x => x.file_count)).sum : ℕ) : ℚ)
          * 100) := by
    rw [List.map_map]
    rfl
  have hshare : ((create_language_info_list (language_stats t)).map (fun e =>
      (e.file_count : ℚ)
        / ((((create_language_info_list (language_stats t)).map (fun x => x.file_count)).sum : ℕ) : ℚ)
        * 100)).sum = 100 := by
    rw [hmm]
    apply list_share_sum
    · rw [hsum]
      exact_mod_cast hT
    · rfl
  refine ⟨hshare, ?_⟩
  have hbound := list_abs_sum_sub_le (fun e : LanguageInfo => e.percentage)
    (fun e : LanguageInfo => (e.file_count : ℚ)
        / ((((language_stats t).map (fun s => s.2.1)).sum : ℕ) : ℚ) * 100)
    (1/200) (create_language_info_list (language_stats t))
    (by
      intro e he
      have hr := abs_round2_sub_le ((e.file_count : ℚ)
        / ((((language_stats t).map (fun s => s.2.1)).sum : ℕ) : ℚ) * 100)
      simpa [hpct e he] using hr)
  have hg : ((create_language_info_list (language_stats t)).map
      (fun e : LanguageInfo => (e.file_count : ℚ)
        / ((((language_stats t).map (fun s => s.2.1)).sum : ℕ) : ℚ) * 100)).sum = 100 := by
    rw [← hsum]
    exact hshare
  rw [hg] at hbound
  calc |((create_language_info_list (language_stats t)).map (fun e => e.percentage)).sum - 100|
      ≤ ((create_language_info_list (language_stats t)).length : ℚ) * (1/200) := hbound
  _ = ((create_language_info_list (language_stats t)).length : ℚ) / 200 := by ring

/-- Closed form of `_calculate_confidence` as a capped sum of the three
bonuses. -/
theorem calculate_confidence_eq (stats : List (String × Nat × Nat × Nat))
    (configs : List (String × String)) :
    calculate_confidence stats configs =
      min ((if 0 < (stats.map (fun s => s.2.1)).sum then (1:ℚ)/2 else 0)
        + (if configs ≠ [] then (3:ℚ)/10 else 0)
        + (if 1 < stats.length then (1:ℚ)/10 else 0)) 1 := by
  unfold calculate_confidence
  by_cases h1 : 0 < (stats.map (fun s => s.2.1)).sum <;>
    by_cases h2 : configs ≠ [] <;>
      by_cases h3 : 1 < stats.length <;>
        simp [h1, h2, h3]

theorem matchedFiles_eq_nil_iff_stats (t : FSTree) :
    matchedFiles t = [] ↔ language_stats t = [] := by
  have h := language_stats_ne_nil_iff t
  constructor
  · intro hm
    by_contra hs
    exact (h.mp hs) hm
  · intro hs
    by_contra hm
    exact (h.mpr hm) hs

/-- Claim C1, counterexample to the claim as stated: a tree with one Python,
one Java and one Go file yields a non-empty language list whose `percentage`
fields are 33.33 each, summing to 99.99 rather than exactly 100. -/
theorem percentage_sum_counterexample :
    (identify_language "/repo" (FSTree.dir "repo" (FSForest.ofList
        [FSTree.file "a.py" 10 100, FSTree.file "b.java" 5 50,
         FSTree.file "c.go" 1 10]))).languages ≠ [] ∧
    ((identify_language "/repo" (FSTree.dir "repo" (FSForest.ofList
        [FSTree.file "a.py" 10 100, FSTree.file "b.java" 5 50,
         FSTree.file "c.go" 1 10]))).languages.map (fun e => e.percentage)).sum ≠ 100 := by
  have hs : language_stats (FSTree.dir "repo" (FSForest.ofList
      [FSTree.file "a.py" 10 100, FSTree.file "b.java" 5 50, FSTree.file "c.go" 1 10])) =
      [("Python", 1, 10, 100), ("Java", 1, 5, 50), ("Go", 1, 1, 10)] := by decide
  have hr : round2 ((100 : ℚ) / 3) = 3333/100 := by
    rw [round2, round_eq]
    norm_num
  constructor
  · simp only [identify_language, hs, create_language_info_list]
    norm_num [sortStable, insertStable, hr]
    exact List.cons_ne_nil _ _
  · simp only [identify_language, hs, create_language_info_list]
    norm_num [sortStable, insertStable, hr]

/-- Witness for C1's amended theorem at a one-file tree. -/
theorem identify_language_percentage_sum_witness :
    (identify_language "/r" (FSTree.dir "repo"
        (FSForest.ofList [FSTree.file "a.py" 10 100]))).languages ≠ [] ∧
    (((identify_language "/r" (FSTree.dir "repo"
        (FSForest.ofList [FSTree.file "a.py" 10 100]))).languages.map (fun e =>
        (e.file_count : ℚ)
          / ((((identify_language "/r" (FSTree.dir "repo"
              (FSForest.ofList [FSTree.file "a.py" 10 100]))).languages.map
                (fun x => x.file_count)).sum : ℕ) : ℚ)
          * 100)).sum = 100 ∧
      |((identify_language "/r" (FSTree.dir "repo"
          (FSForest.ofList [FSTree.file "a.py" 10 100]))).languages.map
            (fun e => e.percentage)).sum - 100|
        ≤ (((identify_language "/r" (FSTree.dir "repo"
            (FSForest.ofList [FSTree.file "a.py" 10 100]))).languages.length : ℕ) : ℚ) / 200) := by
  have hs : language_stats (FSTree.dir "repo"
      (FSForest.ofList [FSTree.file "a.py" 10 100])) = [("Python", 1, 10, 100)] := by decide
  have hne : (identify_language "/r" (FSTree.dir "repo"
      (FSForest.ofList [FSTree.file "a.py" 10 100]))).languages ≠ [] := by
    show create_language_info_list (language_stats (FSTree.dir "repo"
      (FSForest.ofList [FSTree.file "a.py" 10 100]))) ≠ []
    rw [hs]
    simp [create_language_info_list, sortStable, insertStable]
  exact ⟨hne, identify_language_percentage_sum "/r" _ hne⟩

theorem conf_files_only_bounds (stats : List (String × Nat × Nat × Nat))
    (configs : List (String × String))
    (h1 : 0 < (stats.map (fun s => s.2.1)).sum) (h2 : configs = []) :
    (1:ℚ)/2 ≤ calculate_confidence stats configs ∧
      calculate_confidence stats configs ≤ 3/5 := by
  rw [calculate_confidence_eq, if_pos h1, if_neg (by simp [h2])]
  by_cases h3 : 1 < stats.length
  · rw [if_pos h3]
    constructor <;> norm_num
  · rw [if_neg h3]
    constructor <;> norm_num

theorem conf_files_config_bounds (stats : List (String × Nat × Nat × Nat))
    (configs : List (String × String))
    (h1 : 0 < (stats.map (fun s => s.2.1)).sum) (h2 : configs ≠ []) :
    (4:ℚ)/5 ≤ calculate_confidence stats configs ∧
      calculate_confidence stats configs ≤ 9/10 := by
  rw [calculate_confidence_eq, if_pos h1, if_pos h2]
  by_cases h3 : 1 < stats.length
  · rw [if_pos h3]
    constructor <;> norm_num
  · rw [if_neg h3]
    constructor <;> norm_num

/-- Claim C6.  `identify_language`'s confidence score is the capped sum of the
three evidence bonuses (+0.5 for any extension-scan match, +0.3 for any config
file found, +0.1 for more than one detected language), and is strictly
monotone across: empty tree (score 0) < matched files only < matched files
plus a matching config file. -/
theorem identify_language_confidence_formula_and_monotone
    (p q : String) (t t1 t2 t3 : FSTree) (nm : String)
    (h1m : matchedFiles t1 ≠ []) (h1c : analyze_config_files q t1 ≠ [])
    (h2m : matchedFiles t2 ≠ []) (h2c : analyze_config_files q t2 = [])
    (h3 : t3 = FSTree.dir nm FSForest.fnil) :
    (identify_language p t).confidence_score
        = min ((if matchedFiles t ≠ [] then (1:ℚ)/2 else 0)
            + (if analyze_config_files p t ≠ [] then (3:ℚ)/10 else 0)
            + (if 1 < (language_stats t).length then (1:ℚ)/10 else 0)) 1
      ∧ (identify_language q t3).confidence_score = 0
      ∧ (identify_language q t3).confidence_score < (identify_language q t2).confidence_score
      ∧ (identify_language q t2).confidence_score < (identify_language q t1).confidence_score := by
  have hconf : ∀ (pp : String) (tt : FSTree),
      (identify_language pp tt).confidence_score
        = calculate_confidence (language_stats tt) (analyze_config_files pp tt) :=
    fun _ _ => rfl
  have hpos : ∀ tt : FSTree, matchedFiles tt ≠ [] →
      0 < ((language_stats tt).map (fun s => s.2.1)).sum :=
    fun tt htt => (language_stats_total_pos_iff tt).mpr ((language_stats_ne_nil_iff tt).mpr htt)
  have ht3s : language_stats t3 = [] := by
    apply (matchedFiles_eq_nil_iff_stats t3).mp
    subst h3
    simp [matchedFiles, mfF]
  have ht3c : analyze_config_files q t3 = [] := by
    subst h3
    simp [analyze_config_files, levelFileNames, cwF]
  have ht3 : (identify_language q t3).confidence_score = 0 := by
    rw [hconf, ht3s, ht3c, calculate_confidence_eq]
    norm_num
  have hb2 := conf_files_only_bounds (language_stats t2) (analyze_config_files q t2)
    (hpos t2 h2m) h2c
  have hb1 := conf_files_config_bounds (language_stats t1) (analyze_config_files q t1)
    (hpos t1 h1m) h1c
  refine ⟨?_, ht3, ?_, ?_⟩
  · rw [hconf, calculate_confidence_eq]
    have hiff : (0 < ((language_stats t).map (fun s => s.2.1)).sum) ↔ (matchedFiles t ≠ []) :=
      (language_stats_total_pos_iff t).trans (language_stats_ne_nil_iff t)
    simp only [hiff]
  · rw [ht3, hconf]
    calc (0:ℚ) < 1/2 := by norm_num
    _ ≤ calculate_confidence (language_stats t2) (analyze_config_files q t2) := hb2.1
  · rw [hconf, hconf]
    calc calculate_confidence (language_stats t2) (analyze_config_files q t2) ≤ 3/5 := hb2.2
    _ < 4/5 := by norm_num
    _ ≤ calculate_confidence (language_stats t1) (analyze_config_files q t1) := hb1.1

/-- Witness for C6 at concrete trees: one with a Python file and a
`requirements.txt`, one with only a Python file, and an empty tree. -/
theorem identify_language_confidence_witness :
    matchedFiles (FSTree.dir "repo" (FSForest.ofList
        [FSTree.file "a.py" 10 100, FSTree.file "requirements.txt" 1 1])) ≠ [] ∧
    analyze_config_files "/r" (FSTree.dir "repo" (FSForest.ofList
        [FSTree.file "a.py" 10 100, FSTree.file "requirements.txt" 1 1])) ≠ [] ∧
    matchedFiles (FSTree.dir "repo" (FSForest.ofList [FSTree.file "a.py" 10 100])) ≠ [] ∧
    analyze_config_files "/r" (FSTree.dir "repo"
        (FSForest.ofList [FSTree.file "a.py" 10 100])) = [] ∧
    ((identify_language "/r" (FSTree.dir "x" FSForest.fnil)).confidence_score = 0 ∧
      (identify_language "/r" (FSTree.dir "x" FSForest.fnil)).confidence_score
        < (identify_language "/r" (FSTree.dir "repo"
            (FSForest.ofList [FSTree.file "a.py" 10 100]))).confidence_score ∧
      (identify_language "/r" (FSTree.dir "repo"
          (FSForest.ofList [FSTree.file "a.py" 10 100]))).confidence_score
        < (identify_language "/r" (FSTree.dir "repo" (FSForest.ofList
            [FSTree.file "a.py" 10 100, FSTree.file "requirements.txt" 1 1]))).confidence_score) := by
  have h1m : matchedFiles (FSTree.dir "repo" (FSForest.ofList
      [FSTree.file "a.py" 10 100, FSTree.file "requirements.txt" 1 1])) ≠ [] := by decide
  have h1c : analyze_config_files "/r" (FSTree.dir "repo" (FSForest.ofList
      [FSTree.file "a.py" 10 100, FSTree.file "requirements.txt" 1 1])) ≠ [] := by decide
  have h2m : matchedFiles (FSTree.dir "repo"
      (FSForest.ofList [FSTree.file "a.py" 10 100])) ≠ [] := by decide
  have h2c : analyze_config_files "/r" (FSTree.dir "repo"
      (FSForest.ofList [FSTree.file "a.py" 10 100])) = [] := by decide
  have hmain := identify_language_confidence_formula_and_monotone "/r" "/r"
    (FSTree.dir "x" FSForest.fnil)
    (FSTree.dir "repo" (FSForest.ofList
        [FSTree.file "a.py" 10 100, FSTree.file "requirements.txt" 1 1]))
    (FSTree.dir "repo" (FSForest.ofList [FSTree.file "a.py" 10 100]))
    (FSTree.dir "x" FSForest.fnil) "x" h1m h1c h2m h2c rfl
  exact ⟨h1m, h1c, h2m, h2c, hmain.2.1, hmain.2.2.1, hmain.2.2.2⟩

/-- Claim C8.  For every tree the confidence score lies in
`{0, 0.3, 0.5, 0.6, 0.8, 0.9}`; in particular it never exceeds 0.9, so the
cap at 1.0 never binds (the +0.1 multi-language bonus implies the +0.5
file-match bonus). -/
theorem confidence_score_range (p : String) (t : FSTree) :
    (identify_language p t).confidence_score ∈
        ({0, 3/10, 1/2, 3/5, 4/5, 9/10} : Set ℚ) ∧
      (identify_language p t).confidence_score ≤ 9/10 := by
  have hconf : (identify_language p t).confidence_score
      = calculate_confidence (language_stats t) (analyze_config_files p t) := rfl
  rw [hconf, calculate_confidence_eq]
  by_cases h1 : 0 < ((language_stats t).map (fun s => s.2.1)).sum
  · by_cases h2 : analyze_config_files p t ≠ [] <;>
      by_cases h3 : 1 < (language_stats t).length <;>
        simp [h1, h2, h3, Set.mem_insert_iff] <;> norm_num
  · have h3 : ¬ 1 < (language_stats t).length := by
      intro hlen
      apply h1
      rw [language_stats_total_pos_iff]
      intro hnil
      rw [hnil] at hlen
      simp at hlen
    by_cases h2 : analyze_config_files p t ≠ [] <;>
      simp [h1, h2, h3, Set.mem_insert_iff] <;> norm_num

end LangId

/-! ## Git Operations (`tools/git_operations.py`)

Embedding of `GitOperationsAgent`: URL validation (`_is_valid_git_url`),
repository-name extraction (`_extract_repo_name`), authenticated-URL
construction (`_add_auth_to_url`), the clone state machine
(`clone_repository`), platform detection (`_detect_platform`) and the PR
fetch dispatch (`get_pr_details` / `_fetch_git_pr`).

The filesystem is a set of existing directory paths (`GitOps.FS`, one atomic
entry per repository checkout); the external `git clone` and
`urllib.parse.urlparse` are oracle fields of `CloneWorld`.  The outcome of a
clone records the actions performed, so "no clone was attempted" is a
provable statement. -/

namespace GitOps

/-- Oracles for the external collaborators of `clone_repository`:
`cloneOk url path` tells whether `Repo.clone_from` succeeds (the clone args
`depth`/`single_branch`/`branch` only parametrise that external call),
`cloneErrMsg` is the raised error's message, `leftoverDir` whether a failed
clone left a partially-created directory behind, and `uparsePath` is
`urllib.parse.urlparse(url).path`. -/
structure CloneWorld where
  cloneOk : String → String → Bool
  cloneErrMsg : String → String → String
  leftoverDir : String → String → Bool
  uparsePath : String → String
  tempDir : String

/-- Existing directory paths, one atomic entry per checkout target. -/
abbrev FS := List String

def fsHas (fs : FS) (p : String) : Bool := fs.contains p

/-- Python `shutil.rmtree p` (guarded by `os.path.exists` at every call site). -/
def rmtree (fs : FS) (p : String) : FS := fs.filter (fun q => q != p)

/-- Path `self.base_clone_dir = Path(self.temp_dir) / "ai_codescan_repos"`. -/
def base_clone_dir (w : CloneWorld) : String := w.tempDir ++ "/ai_codescan_repos"

/-- Embeds `_is_valid_git_url`: the URL (lower-cased) must contain one of the four
fixed patterns; note `.git` is a substring test, not a suffix test. -/
def valid_patterns : List String := ["github.com", "gitlab.com", "bitbucket.org", ".git"]

def is_valid_git_url (url : String) : Bool :=
  valid_patterns.any (fun p => strContainsSub (lowerS url) p)

/-- Embeds `_extract_repo_name`: strip slashes from the parsed path, drop a `.git`
suffix, and take the last `/`-separated component. -/
def extract_repo_name (w : CloneWorld) (repo_url : String) : String :=
  let path0 := stripChar '/' (w.uparsePath repo_url).toList
  let path1 := if decide ([  '.', 'g', 'i', 't'] <:+ path0) then path0.dropLast.dropLast.dropLast.dropLast else path0
  if path1.contains '/' then String.mk (lastPart (splitOnChar '/' path1))
  else String.mk path1

/-- Embeds `_add_auth_to_url`: splice the token into the scheme prefix
(GitLab gets an `oauth2:` prefix; GitHub and the default are identical). -/
def add_auth_to_url (url pat : String) : String :=
  if strContainsSub url "github.com" then
    replaceAll url "https://" ("https://" ++ pat ++ "@")
  else if strContainsSub url "gitlab.com" then
    replaceAll url "https://" ("https://oauth2:" ++ pat ++ "@")
  else
    replaceAll url "https://" ("https://" ++ pat ++ "@")

/-- Result of `clone_repository`: the `ValueError` for an invalid URL, the
re-raised `GitCommandError`, or a successful clone at the target path (the
extracted `RepositoryInfo` is read from the checkout by external Git calls
and is not needed by any claim). -/
inductive CloneOutcome where
  | invalidUrl (msg : String)
  | cloneError (msg : String)
  | success (path : String)
deriving DecidableEq

/-- Observable side effects of `clone_repository`, in order. -/
inductive CloneAction where
  | removedExisting (p : String)
  | cloneAttempt (authUrl p : String)
  | cleanedUpFailed (p : String)
deriving DecidableEq

/-- The target local path: caller-supplied, or derived from the repo name
under the base clone directory. -/
def targetPath (w : CloneWorld) (repo_url : String) (local_path : Option String) : String :=
  match local_path with
  | some p => p
  | none => base_clone_dir w ++ "/" ++ extract_repo_name w repo_url

/-- The URL actually passed to the clone call. -/
def authUrlOf (repo_url : String) (pat : Option String) : String :=
  match pat with
  | some tk => add_auth_to_url repo_url tk
  | none => repo_url

/-- Embeds `clone_repository(repo_url, local_path, depth, branch, pat)`:
validate the URL, derive the target path, remove a pre-existing directory,
clone, and on failure remove any partially-created directory before
re-raising. -/
def clone_repository (w : CloneWorld) (fs : FS) (repo_url : String)
    (local_path : Option String) (pat : Option String) :
    CloneOutcome × FS × List CloneAction :=
  if ¬ is_valid_git_url repo_url then
    (.invalidUrl ("Invalid Git repository URL: " ++ repo_url), fs, [])
  else
    let path := targetPath w repo_url local_path
    let existed := fsHas fs path
    let fs1 := if existed then rmtree fs path else fs
    let acts1 : List CloneAction := if existed then [.removedExisting path] else []
    let auth_url := authUrlOf repo_url pat
    let acts2 := acts1 ++ [.cloneAttempt auth_url path]
    if w.cloneOk auth_url path then
      (.success path, path :: fs1, acts2)
    else
      let fs2 := if w.leftoverDir auth_url path then path :: fs1 else fs1
      let existedAfter := fsHas fs2 path
      let fs3 := if existedAfter then rmtree fs2 path else fs2
      let acts3 := acts2 ++ (if existedAfter then [.cleanedUpFailed path] else [])
      (.cloneError (w.cloneErrMsg auth_url path), fs3, acts3)

theorem fsHas_rmtree (fs : FS) (p : String) : fsHas (rmtree fs p) p = false := by
  unfold fsHas rmtree
  rw [Bool.eq_false_iff]
  intro hc
  have hmem : p ∈ fs.filter (fun q => q != p) := List.elem_iff.mp hc
  have h2 := (List.mem_filter.mp hmem).2
  simp at h2

theorem fsHas_cleanup (fs2 : FS) (p : String) :
    fsHas (if fsHas fs2 p = true then rmtree fs2 p else fs2) p = false := by
  cases hb : fsHas fs2 p
  · rw [if_neg Bool.false_ne_true]
    exact hb
  · rw [if_pos rfl]
    exact fsHas_rmtree fs2 p

/-- Claim C2.  Whenever the underlying clone operation fails, the
`GitCommandError` propagates to the caller as the outcome and the target
local directory (caller-supplied or auto-derived) does not exist afterwards:
any partially-created directory is removed before the error propagates. -/
theorem clone_repository_failure_cleanup (w : CloneWorld) (fs : FS)
    (repo_url : String) (local_path : Option String) (pat : Option String)
    (hvalid : is_valid_git_url repo_url = true)
    (hfail : w.cloneOk (authUrlOf repo_url pat) (targetPath w repo_url local_path) = false) :
    (clone_repository w fs repo_url local_path pat).1
        = CloneOutcome.cloneError
            (w.cloneErrMsg (authUrlOf repo_url pat) (targetPath w repo_url local_path)) ∧
    fsHas (clone_repository w fs repo_url local_path pat).2.1
        (targetPath w repo_url local_path) = false := by
  unfold clone_repository
  simp only [hvalid, not_true, Bool.not_eq_true, if_false, ite_false, Bool.false_eq_true, hfail]
  exact ⟨trivial, fsHas_cleanup _ _⟩

/-- Concrete world in which every clone fails with "network down" and leaves
a partial directory (used by the C2 witness). -/
def failWorld : CloneWorld :=
  { cloneOk := fun _ _ => false
    cloneErrMsg := fun _ _ => "network down"
    leftoverDir := fun _ _ => true
    uparsePath := fun _ => "/u/r.git"
    tempDir := "/tmp" }

/-- Witness for C2: a failing clone of a valid GitHub URL into a
pre-existing caller-supplied directory, with a partial directory left behind
by the failed clone. -/
theorem clone_repository_failure_cleanup_witness :
    (is_valid_git_url "https://github.com/u/r.git" = true ∧
      failWorld.cloneOk (authUrlOf "https://github.com/u/r.git" none)
        (targetPath failWorld "https://github.com/u/r.git" (some "/tmp/x")) = false) ∧
    (clone_repository failWorld ["/tmp/x"] "https://github.com/u/r.git" (some "/tmp/x") none).1
      = CloneOutcome.cloneError "network down" ∧
    fsHas (clone_repository failWorld ["/tmp/x"] "https://github.com/u/r.git"
        (some "/tmp/x") none).2.1 "/tmp/x" = false := by
  refine ⟨⟨by decide, by decide⟩, ?_, ?_⟩
  · exact (clone_repository_failure_cleanup failWorld ["/tmp/x"] "https://github.com/u/r.git"
      (some "/tmp/x") none (by decide) (by decide)).1
  · exact (clone_repository_failure_cleanup failWorld ["/tmp/x"] "https://github.com/u/r.git"
      (some "/tmp/x") none (by decide) (by decide)).2

/-- Claim C4 (amended).  For every URL that contains none of the four
validation patterns anywhere (the three host substrings and `.git` — the
source tests `.git` as a substring, not as a suffix), `clone_repository`
raises the invalid-URL `ValueError` before any clone attempt or directory
modification: the filesystem is unchanged and the action log is empty. -/
theorem clone_repository_invalid_url (w : CloneWorld) (fs : FS) (repo_url : String)
    (local_path : Option String) (pat : Option String)
    (h : ∀ patn ∈ valid_patterns, strContainsSub (lowerS repo_url) patn = false) :
    clone_repository w fs repo_url local_path pat
      = (CloneOutcome.invalidUrl ("Invalid Git repository URL: " ++ repo_url), fs, []) := by
  have hv : is_valid_git_url repo_url = false := by
    unfold is_valid_git_url
    rw [List.any_eq_false]
    intro x hx
    rw [h x hx]
    exact Bool.false_ne_true
  unfold clone_repository
  rw [if_pos (by rw [hv]; exact Bool.false_ne_true)]

/-- Witness for C4's amended theorem at a URL with no recognised pattern. -/
theorem clone_repository_invalid_url_witness :
    (∀ patn ∈ valid_patterns,
        strContainsSub (lowerS "https://example.com/repo") patn = false) ∧
    clone_repository failWorld [] "https://example.com/repo" none none
      = (CloneOutcome.invalidUrl "Invalid Git repository URL: https://example.com/repo",
          [], []) := by
  refine ⟨by decide, ?_⟩
  have hres := clone_repository_invalid_url failWorld [] "https://example.com/repo"
    none none (by decide)
  exact hres

/-- Concrete world in which every clone succeeds (used by the C4
counterexample). -/
def okWorld : CloneWorld :=
  { cloneOk := fun _ _ => true
    cloneErrMsg := fun _ _ => ""
    leftoverDir := fun _ _ => false
    uparsePath := fun _ => "/a.git/b"
    tempDir := "/tmp" }

/-- Claim C4, counterexample to the claim as stated: the URL
`https://example.com/a.git/b` contains none of the known host substrings and
does not end in `.git`, yet `_is_valid_git_url` accepts it (the source tests
`.git` as a substring of the whole URL), so `clone_repository` proceeds to a
clone attempt instead of failing with the invalid-URL error. -/
theorem clone_invalid_url_counterexample :
    (strContainsSub (lowerS "https://example.com/a.git/b") "github.com" = false ∧
     strContainsSub (lowerS "https://example.com/a.git/b") "gitlab.com" = false ∧
     strContainsSub (lowerS "https://example.com/a.git/b") "bitbucket.org" = false ∧
     strEnds "https://example.com/a.git/b" ".git" = false) ∧
    (clone_repository okWorld [] "https://example.com/a.git/b" none none).1
      = CloneOutcome.success "/tmp/ai_codescan_repos/b" ∧
    CloneAction.cloneAttempt "https://example.com/a.git/b" "/tmp/ai_codescan_repos/b"
      ∈ (clone_repository okWorld [] "https://example.com/a.git/b" none none).2.2 := by
  exact ⟨⟨by decide, by decide, by decide, by decide⟩, by decide, by decide⟩

/-- Values of the free-form `metadata` dictionary of `PullRequestInfo`. -/
inductive MetaVal where
  | bool (b : Bool)
  | str (s : String)
  | int (i : Int)
  | none
deriving DecidableEq

/-- Dataclass `PullRequestInfo` (datetimes are modelled as abstract `Nat` instants). -/
structure PullRequestInfo where
  pr_id : String
  title : String
  description : String
  author : String
  created_at : Nat
  updated_at : Nat
  status : String
  source_branch : String
  target_branch : String
  base_commit : String
  head_commit : String
  diff_text : String
  changed_files : List String
  files_added : List String
  files_modified : List String
  files_deleted : List String
  additions : Int
  deletions : Int
  changed_lines : Int
  platform : String
  web_url : String
  api_url : String
  labels : List String
  assignees : List String
  reviewers : List String
  metadata : List (String × MetaVal)
deriving DecidableEq

/-- Embeds `_detect_platform`: substring tests on the lower-cased URL. -/
def detect_platform (repo_url : String) : String :=
  if strContainsSub (lowerS repo_url) "github.com" then "github"
  else if strContainsSub (lowerS repo_url) "gitlab.com" then "gitlab"
  else "unknown"

/-- Embeds `_fetch_git_pr`: the Git-fallback stub `PullRequestInfo` (`now` models
`datetime.now()`). -/
def fetch_git_pr (now : Nat) (repo_url pr_id : String) : PullRequestInfo :=
  { pr_id := pr_id
    title := "Pull Request #" ++ pr_id
    description := "PR details fetched via Git fallback"
    author := "unknown"
    created_at := now
    updated_at := now
    status := "unknown"
    source_branch := "unknown"
    target_branch := "main"
    base_commit := ""
    head_commit := ""
    diff_text := "Diff not available via Git fallback"
    changed_files := []
    files_added := []
    files_modified := []
    files_deleted := []
    additions := 0
    deletions := 0
    changed_lines := 0
    platform := "git_fallback"
    web_url := repo_url
    api_url := ""
    labels := []
    assignees := []
    reviewers := []
    metadata := [("fallback", MetaVal.bool true)] }

/-- Embeds `get_pr_details`: dispatch on the detected platform.  The GitHub and
GitLab branches call the hosting APIs and are oracle parameters (both catch
all their exceptions internally and fall back to `_fetch_git_pr`, so the
dispatch itself is total); the unknown-platform branch is the concrete
Git-fallback stub. -/
def get_pr_details (githubFetch gitlabFetch : String → String → PullRequestInfo)
    (now : Nat) (repo_url pr_id : String) : PullRequestInfo :=
  if detect_platform repo_url = "github" then githubFetch repo_url pr_id
  else if detect_platform repo_url = "gitlab" then gitlabFetch repo_url pr_id
  else fetch_git_pr now repo_url pr_id

/-- Claim C3.  For every URL whose platform is neither GitHub nor GitLab,
`get_pr_details` returns (without raising — the embedding is total) the
Git-fallback stub: `platform = "git_fallback"`, `metadata["fallback"] = true`,
empty changed/added/modified/deleted file lists, and zero addition/deletion
counts. -/
theorem get_pr_details_fallback (githubFetch gitlabFetch : String → String → PullRequestInfo)
    (now : Nat) (repo_url pr_id : String)
    (h1 : strContainsSub (lowerS repo_url) "github.com" = false)
    (h2 : strContainsSub (lowerS repo_url) "gitlab.com" = false) :
    get_pr_details githubFetch gitlabFetch now repo_url pr_id
        = fetch_git_pr now repo_url pr_id ∧
    (get_pr_details githubFetch gitlabFetch now repo_url pr_id).platform = "git_fallback" ∧
    ((get_pr_details githubFetch gitlabFetch now repo_url pr_id).metadata.find?
        (fun kv => kv.1 == "fallback")).map (fun kv => kv.2) = some (MetaVal.bool true) ∧
    (get_pr_details githubFetch gitlabFetch now repo_url pr_id).changed_files = [] ∧
    (get_pr_details githubFetch gitlabFetch now repo_url pr_id).files_added = [] ∧
    (get_pr_details githubFetch gitlabFetch now repo_url pr_id).files_modified = [] ∧
    (get_pr_details githubFetch gitlabFetch now repo_url pr_id).files_deleted = [] ∧
    (get_pr_details githubFetch gitlabFetch now repo_url pr_id).additions = 0 ∧
    (get_pr_details githubFetch gitlabFetch now repo_url pr_id).deletions = 0 := by
  have hplat : detect_platform repo_url = "unknown" := by
    unfold detect_platform
    rw [if_neg (by rw [h1]; exact Bool.false_ne_true),
      if_neg (by rw [h2]; exact Bool.false_ne_true)]
  have hdisp : get_pr_details githubFetch gitlabFetch now repo_url pr_id
      = fetch_git_pr now repo_url pr_id := by
    unfold get_pr_details
    rw [hplat]
    rw [if_neg (by decide), if_neg (by decide)]
  refine ⟨hdisp, ?_, ?_, ?_, ?_, ?_, ?_, ?_, ?_⟩ <;> rw [hdisp] <;> rfl

/-- Witness for C3 at a Bitbucket URL (Bitbucket is not an API-supported
platform in `_detect_platform`). -/
theorem get_pr_details_fallback_witness :
    (strContainsSub (lowerS "https://bitbucket.org/team/repo.git") "github.com" = false ∧
     strContainsSub (lowerS "https://bitbucket.org/team/repo.git") "gitlab.com" = false) ∧
    ((get_pr_details (fun _ _ => fetch_git_pr 0 "" "") (fun _ _ => fetch_git_pr 0 "" "") 7
        "https://bitbucket.org/team/repo.git" "42").platform = "git_fallback" ∧
      ((get_pr_details (fun _ _ => fetch_git_pr 0 "" "") (fun _ _ => fetch_git_pr 0 "" "") 7
          "https://bitbucket.org/team/repo.git" "42").metadata.find?
            (fun kv => kv.1 == "fallback")).map (fun kv => kv.2) = some (MetaVal.bool true) ∧
      (get_pr_details (fun _ _ => fetch_git_pr 0 "" "") (fun _ _ => fetch_git_pr 0 "" "") 7
        "https://bitbucket.org/team/repo.git" "42").changed_files = [] ∧
      (get_pr_details (fun _ _ => fetch_git_pr 0 "" "") (fun _ _ => fetch_git_pr 0 "" "") 7
        "https://bitbucket.org/team/repo.git" "42").additions = 0) := by
  have hmain := get_pr_details_fallback (fun _ _ => fetch_git_pr 0 "" "")
    (fun _ _ => fetch_git_pr 0 "" "") 7 "https://bitbucket.org/team/repo.git" "42"
    (by decide) (by decide)
  exact ⟨⟨by decide, by decide⟩, hmain.2.1, hmain.2.2.1, hmain.2.2.2.1, hmain.2.2.2.2.2.2.2.1⟩

end GitOps

/-! ## PAT Handler (`tools/pat_handler.py`)

Embedding of `PATHandlerAgent.store_pat` / `retrieve_pat` /
`_create_token_hash`.  The external cryptographic primitives are oracle
parameters: `hashFn` models `hashlib.sha256(...).hexdigest()` (the C5
theorem assumes it is injective, the idealisation of collision resistance),
a `Cipher` models the session `Fernet` instance (its round-trip law is a
hypothesis), the fresh salt `secrets.token_hex(16)` is an explicit argument
per call, and `now` models the timestamps. -/

namespace PatH

/-- Dataclass `PATInfo` (timestamps as abstract `Nat` instants). -/
structure PATInfo where
  platform : String
  username : String
  token_hash : String
  encrypted_token : String
  created_at : Nat
  last_used : Option Nat
deriving DecidableEq

/-- The session `Fernet` cipher: decryption returns `none` on failure
(the source catches the exception and returns `None`). -/
structure Cipher where
  encrypt : String → String
  decrypt : String → Option String

/-- Embeds `_create_token_hash`: hash of `f"{token}_{session_id}_{salt}"`. -/
def create_token_hash (hashFn : String → String) (token session_id salt : String) : String :=
  hashFn (token ++ "_" ++ session_id ++ "_" ++ salt)

/-- Dictionary `self.stored_pats`: an insertion-ordered dictionary keyed by hash. -/
abbrev VaultState := List (String × PATInfo)

/-- Dictionary assignment `self.stored_pats[h] = info`. -/
def storeSet (st : VaultState) (k : String) (v : PATInfo) : VaultState :=
  if st.any (fun p => p.1 == k) then
    st.map (fun p => if p.1 == k then (k, v) else p)
  else st ++ [(k, v)]

/-- Embeds `store_pat(platform, username, token, session_id)`: reject blank tokens,
hash with the fresh salt, encrypt, and store under the hash. -/
def store_pat (hashFn : String → String) (c : Cipher)
    (platform username token session_id salt : String) (now : Nat)
    (st : VaultState) : Except String (String × VaultState) :=
  if stripWs token.toList = [] then .error "Token cannot be empty"
  else
    let token_hash := create_token_hash hashFn token session_id salt
    let info : PATInfo :=
      { platform := lowerS platform
        username := username
        token_hash := token_hash
        encrypted_token := c.encrypt token
        created_at := now
        last_used := none }
    .ok (token_hash, storeSet st token_hash info)

/-- Embeds `retrieve_pat(token_hash)`: decrypt the stored ciphertext; a missing hash
or a decryption failure yields `none` (and only a successful retrieval stamps
`last_used`). -/
def retrieve_pat (c : Cipher) (st : VaultState) (token_hash : String) (now : Nat) :
    Option String × VaultState :=
  match st.find? (fun p => p.1 == token_hash) with
  | none => (none, st)
  | some kv =>
    match c.decrypt kv.2.encrypted_token with
    | some tok =>
      (some tok, st.map (fun p => if p.1 == token_hash
        then (p.1, { p.2 with last_used := some now }) else p))
    | none => (none, st)

theorem find?_storeSet_self (st : VaultState) (k : String) (v : PATInfo) :
    (storeSet st k v).find? (fun p => p.1 == k) = some (k, v) := by
  unfold storeSet
  by_cases h : st.any (fun p => p.1 == k) = true
  · rw [if_pos h]
    induction st with
    | nil => simp at h
    | cons q qs ih =>
      by_cases hq : q.1 == k
      · simp only [List.map_cons, if_pos hq]
        rw [List.find?_cons_of_pos _ (by exact beq_self_eq_true k)]
      · have hq2 : qs.any (fun p => p.1 == k) = true := by
          rcases List.any_eq_true.mp h with ⟨x, hx, hxk⟩
          rcases List.mem_cons.mp hx with rfl | hx2
          · exact absurd hxk (by simp [hq])
          · exact List.any_eq_true.mpr ⟨x, hx2, hxk⟩
        simp only [List.map_cons, if_neg hq]
        rw [List.find?_cons_of_neg _ (by simpa using hq)]
        exact ih hq2
  · rw [if_neg h]
    have hnone : st.find? (fun p => p.1 == k) = none := by
      rw [List.find?_eq_none]
      intro x hx
      intro hxk
      exact h (List.any_eq_true.mpr ⟨x, hx, hxk⟩)
    induction st with
    | nil => simp
    | cons q qs ih =>
      have hq : (q.1 == k) = false := by
        by_contra hc
        rw [List.find?_cons_of_pos _ (by simpa using hc)] at hnone
        exact Option.noConfusion hnone
      rw [List.find?_cons_of_neg _ (by simp [hq])] at hnone
      simp only [List.cons_append]
      rw [List.find?_cons_of_neg _ (by simp [hq])]
      exact ih (fun hany => h (by simp [List.any_cons, hany])) hnone

theorem find?_storeSet_other (st : VaultState) (k k2 : String) (v : PATInfo)
    (hne : k2 ≠ k) :
    (storeSet st k v).find? (fun p => p.1 == k2) = st.find? (fun p => p.1 == k2) := by
  unfold storeSet
  by_cases h : st.any (fun p => p.1 == k) = true
  · rw [if_pos h]
    clear h
    induction st with
    | nil => simp
    | cons q qs ih =>
      by_cases hq : q.1 == k
      · have hqk : q.1 = k := by simpa using hq
        have hq2 : (q.1 == k2) = false := by
          simp [hqk]
          exact fun hc => hne hc.symm
        simp only [List.map_cons, if_pos hq]
        rw [List.find?_cons_of_neg _ (by simp; exact fun hc => hne hc.symm),
          List.find?_cons_of_neg _ (by simp [hqk]; exact fun hc => hne hc.symm)]
        exact ih
      · simp only [List.map_cons, if_neg hq]
        by_cases hq2 : q.1 == k2
        · rw [List.find?_cons_of_pos _ (by simpa using hq2),
            List.find?_cons_of_pos _ (by simpa using hq2)]
        · rw [List.find?_cons_of_neg _ (by simpa using hq2),
            List.find?_cons_of_neg _ (by simpa using hq2)]
          exact ih
  · rw [if_neg h]
    induction st with
    | nil =>
      simp only [List.nil_append]
      rw [List.find?_cons_of_neg _ (by simp; exact fun hc => hne hc.symm), List.find?_nil]
    | cons q qs ih =>
      simp only [List.cons_append]
      by_cases hq2 : q.1 == k2
      · rw [List.find?_cons_of_pos _ (by simpa using hq2),
          List.find?_cons_of_pos _ (by simpa using hq2)]
      · rw [List.find?_cons_of_neg _ (by simpa using hq2),
          List.find?_cons_of_neg _ (by simpa using hq2)]
        exact ih (fun hany => h (by simp [List.any_cons, hany]))

theorem string_append_left_cancel (a b c : String) (h : a ++ b = a ++ c) : b = c := by
  have hd := congrArg String.data h
  simp only [String.data_append] at hd
  exact String.ext (List.append_cancel_left hd)

/-- Claim C5 (amended).  For every token that is non-blank after stripping
whitespace, two successive `store_pat` calls with the same platform,
username, token and session id but distinct fresh salts return two distinct
hashes (given the injectivity idealisation of SHA-256), and `retrieve_pat`
on each hash returns the original token unchanged (given the Fernet
round-trip law). -/
theorem store_pat_distinct_hashes_roundtrip
    (hashFn : String → String) (hinj : Function.Injective hashFn)
    (c : Cipher) (hc : ∀ s, c.decrypt (c.encrypt s) = some s)
    (platform username token session_id salt1 salt2 : String)
    (htok : stripWs token.toList ≠ [])
    (hsalt : salt1 ≠ salt2)
    (now1 now2 now3 now4 : Nat) (st : VaultState) :
    ∃ h1 st1 h2 st2,
      store_pat hashFn c platform username token session_id salt1 now1 st
          = .ok (h1, st1) ∧
      store_pat hashFn c platform username token session_id salt2 now2 st1
          = .ok (h2, st2) ∧
      h1 ≠ h2 ∧
      (retrieve_pat c st2 h1 now3).1 = some token ∧
      (retrieve_pat c st2 h2 now4).1 = some token := by
  have hne : create_token_hash hashFn token session_id salt1
      ≠ create_token_hash hashFn token session_id salt2 := by
    intro he
    apply hsalt
    exact string_append_left_cancel (token ++ "_" ++ session_id ++ "_") salt1 salt2 (hinj he)
  refine ⟨create_token_hash hashFn token session_id salt1,
    storeSet st (create_token_hash hashFn token session_id salt1)
      { platform := lowerS platform, username := username
        token_hash := create_token_hash hashFn token session_id salt1
        encrypted_token := c.encrypt token, created_at := now1, last_used := none },
    create_token_hash hashFn token session_id salt2,
    storeSet (storeSet st (create_token_hash hashFn token session_id salt1)
      { platform := lowerS platform, username := username
        token_hash := create_token_hash hashFn token session_id salt1
        encrypted_token := c.encrypt token, created_at := now1, last_used := none })
      (create_token_hash hashFn token session_id salt2)
      { platform := lowerS platform, username := username
        token_hash := create_token_hash hashFn token session_id salt2
        encrypted_token := c.encrypt token, created_at := now2, last_used := none },
    ?_, ?_, hne, ?_, ?_⟩
  · unfold store_pat
    rw [if_neg htok]
  · unfold store_pat
    rw [if_neg htok]
  · unfold retrieve_pat
    rw [find?_storeSet_other _ _ _ _ hne, find?_storeSet_self]
    simp only [hc]
  · unfold retrieve_pat
    rw [find?_storeSet_self]
    simp only [hc]

/-- Witness for C5's amended theorem with the identity hash and cipher
models, token `"tok"`, and salts `"a"`, `"b"`. -/
theorem store_pat_distinct_hashes_roundtrip_witness :
    (stripWs "tok".toList ≠ [] ∧ ("a" : String) ≠ "b") ∧
    (∃ h1 st1 h2 st2,
      store_pat (fun s => s) { encrypt := fun s => s, decrypt := fun s => some s }
          "github" "u" "tok" "sess" "a" 0 [] = .ok (h1, st1) ∧
      store_pat (fun s => s) { encrypt := fun s => s, decrypt := fun s => some s }
          "github" "u" "tok" "sess" "b" 1 st1 = .ok (h2, st2) ∧
      h1 ≠ h2 ∧
      (retrieve_pat { encrypt := fun s => s, decrypt := fun s => some s } st2 h1 2).1
          = some "tok" ∧
      (retrieve_pat { encrypt := fun s => s, decrypt := fun s => some s } st2 h2 3).1
          = some "tok") := by
  refine ⟨⟨by decide, by decide⟩, ?_⟩
  exact store_pat_distinct_hashes_roundtrip (fun s => s) (fun _ _ h => h)
    { encrypt := fun s => s, decrypt := fun s => some s } (fun _ => rfl)
    "github" "u" "tok" "sess" "a" "b" (by decide) (by decide) 0 1 2 3 []

/-- Claim C5, counterexample to the claim as stated: the token `" "` is a
non-empty string, yet `store_pat` raises `ValueError("Token cannot be
empty")` instead of returning a hash, because the emptiness check also
strips whitespace. -/
theorem store_pat_blank_token_counterexample :
    (" " : String) ≠ "" ∧
    store_pat (fun s => s) { encrypt := fun s => s, decrypt := fun s => some s }
        "github" "u" " " "sess" "salt" 0 []
      = .error "Token cannot be empty" := by
  exact ⟨by decide, rfl⟩

end PatH

/-! ## Code Fetcher (`tools/code_fetcher.py`)

Embedding of `CodeFetcherAgent.get_pr_diff`.  The function catches every
exception — the whole body sits under a `try` whose `except Exception`
fills the `error` field — so the embedding is a total function from an
oracle describing the git pipeline's outcome (URL parse, clone, PR-ref
fetch, base-commit resolution) to the fixed-shape result dictionary
(`PRDiffResult`, whose fields are exactly the seven keys of the source's
`result`). -/

namespace CodeF

/-- One GitPython diff item of `base_commit.diff(pr_commit, create_patch=True)`:
optional old/new paths and the decoded patch text (empty string models
absent/empty diff bytes, which are falsy in the source). -/
structure DiffItem where
  a_path : Option String
  b_path : Option String
  diff : String
deriving DecidableEq

/-- One entry of the `commits` list (fields as assembled by the source). -/
structure CommitEntry where
  sha : String
  message : String
  author : String
  date : String
deriving DecidableEq

structure PRStats where
  additions : Nat
  deletions : Nat
  files : Nat
deriving DecidableEq

/-- The `result` dictionary of `get_pr_diff`: exactly the keys
`pr_id, repo_url, diff, files_changed, stats, commits, error`. -/
structure PRDiffResult where
  pr_id : Int
  repo_url : String
  diff : String
  files_changed : List String
  stats : PRStats
  commits : List CommitEntry
  error : Option String
deriving DecidableEq

/-- Python truthiness of an optional string (`None` and `""` are falsy). -/
def optTruthy : Option String → Option String
  | some s => if s = "" then none else some s
  | none => none

/-- The `files_changed` accumulation: `a_path` if truthy, else `b_path` if
truthy. -/
def prFilesChanged (items : List DiffItem) : List String :=
  items.foldl (fun acc it =>
    match optTruthy it.a_path with
    | some p => acc ++ [p]
    | none =>
      match optTruthy it.b_path with
      | some p => acc ++ [p]
      | none => acc) []

/-- The `diff_text` accumulation: each non-empty patch followed by a newline. -/
def prDiffText (items : List DiffItem) : String :=
  items.foldl (fun acc it => if it.diff ≠ "" then acc ++ it.diff ++ "\n" else acc) ""

/-- Lines starting with `+` but not `+++` in the unified diff text. -/
def countAdditions (diff_text : String) : Nat :=
  ((splitOnChar '\n' diff_text.toList).filter (fun l =>
    decide (['+'] <+: l) && ! decide (['+', '+', '+'] <+: l))).length

/-- Lines starting with `-` but not `---` in the unified diff text. -/
def countDeletions (diff_text : String) : Nat :=
  ((splitOnChar '\n' diff_text.toList).filter (fun l =>
    decide (['-'] <+: l) && ! decide (['-', '-', '-'] <+: l))).length

/-- The `result.update(...)` of the successful branch: diff text, de-duplicated
changed-file list (`list(set(...))`, modelled as first-occurrence dedup), and
the line-count statistics (note `stats.files` counts the list before
de-duplication, as the source does). -/
def buildSuccess (repo_url : String) (pr_id : Int)
    (items : List DiffItem) (commits : List CommitEntry) : PRDiffResult :=
  { pr_id := pr_id
    repo_url := repo_url
    diff := prDiffText items
    files_changed := dedupKeepFirst (prFilesChanged items)
    stats :=
      { additions := countAdditions (prDiffText items)
        deletions := countDeletions (prDiffText items)
        files := (prFilesChanged items).length }
    commits := commits
    error := none }

/-- Outcome of `_parse_repo_url` (raises `ValueError` on a malformed or
unsupported URL, otherwise yields the platform name). -/
inductive ParseOutcome where
  | fail (msg : String)
  | ok (platform : String)
deriving DecidableEq

/-- Outcome of the git pipeline after a successful parse: clone failure
(`GitError` from `clone_repository`), a `GitCommandError` while fetching the
PR ref (handled by the inner `except`), any other failure (e.g. the
`GitError` when no base commit exists — handled by the outer `except`), or
success with the diff items and commit list. -/
inductive PipelineOutcome where
  | cloneFail (msg : String)
  | fetchCmdFail (msg : String)
  | otherFail (msg : String)
  | ok (items : List DiffItem) (commits : List CommitEntry)
deriving DecidableEq

/-- Embeds `get_pr_diff(repo_url, pr_id)`: the default result dictionary, updated by
the successful branch, or with `error` set by the inner `GitCommandError`
handler or the outer catch-all handler.  Total by construction — no path
raises. -/
def get_pr_diff (parse : ParseOutcome) (pipe : PipelineOutcome)
    (repo_url : String) (pr_id : Int) : PRDiffResult :=
  let base : PRDiffResult :=
    { pr_id := pr_id, repo_url := repo_url, diff := "", files_changed := []
      stats := { additions := 0, deletions := 0, files := 0 }
      commits := [], error := none }
  match parse with
  | .fail msg => { base with error := some ("Error getting PR diff: " ++ msg) }
  | .ok platform =>
    match pipe with
    | .cloneFail msg => { base with error := some ("Error getting PR diff: " ++ msg) }
    | .otherFail msg => { base with error := some ("Error getting PR diff: " ++ msg) }
    | .fetchCmdFail msg =>
      { base with error := some (if platform = "gitlab" ∨ platform = "bitbucket"
          then "PR diff not available for " ++ platform ++ " (API access required)"
          else "Failed to fetch PR " ++ toString pr_id ++ ": " ++ msg) }
    | .ok items commits => buildSuccess repo_url pr_id items commits

/-- Does the oracle describe an internal failure? -/
def prFailure : ParseOutcome → PipelineOutcome → Bool
  | .fail _, _ => true
  | .ok _, .cloneFail _ => true
  | .ok _, .fetchCmdFail _ => true
  | .ok _, .otherFail _ => true
  | .ok _, .ok _ _ => false

/-- Claim C7.  In the local (non-API) PR diff path, the reported `additions`
equals the number of lines of the produced unified diff text beginning with
`+` but not `+++`, and `deletions` likewise for `-` and `---`. -/
theorem get_pr_diff_line_counts (platform : String) (items : List DiffItem)
    (commits : List CommitEntry) (repo_url : String) (pr_id : Int) :
    (get_pr_diff (.ok platform) (.ok items commits) repo_url pr_id).stats.additions
        = ((splitOnChar '\n'
            (get_pr_diff (.ok platform) (.ok items commits) repo_url pr_id).diff.toList).filter
          (fun l => decide (['+'] <+: l) && ! decide (['+', '+', '+'] <+: l))).length ∧
    (get_pr_diff (.ok platform) (.ok items commits) repo_url pr_id).stats.deletions
        = ((splitOnChar '\n'
            (get_pr_diff (.ok platform) (.ok items commits) repo_url pr_id).diff.toList).filter
          (fun l => decide (['-'] <+: l) && ! decide (['-', '-', '-'] <+: l))).length := by
  exact ⟨rfl, rfl⟩

/-- Claim C9.  `get_pr_diff` never raises (the embedding is a total function
whose result type has exactly the keys `pr_id, repo_url, diff, files_changed,
stats, commits, error`); on any internal failure the `error` field is a
non-None string while `diff` stays empty, `files_changed` and `commits` stay
empty lists, `stats` stays all-zero, and `pr_id`/`repo_url` echo the
arguments. -/
theorem get_pr_diff_error_contract (parse : ParseOutcome) (pipe : PipelineOutcome)
    (repo_url : String) (pr_id : Int)
    (hfail : prFailure parse pipe = true) :
    (get_pr_diff parse pipe repo_url pr_id).error.isSome = true ∧
    (get_pr_diff parse pipe repo_url pr_id).diff = "" ∧
    (get_pr_diff parse pipe repo_url pr_id).files_changed = [] ∧
    (get_pr_diff parse pipe repo_url pr_id).commits = [] ∧
    (get_pr_diff parse pipe repo_url pr_id).stats
        = { additions := 0, deletions := 0, files := 0 } ∧
    (get_pr_diff parse pipe repo_url pr_id).pr_id = pr_id ∧
    (get_pr_diff parse pipe repo_url pr_id).repo_url = repo_url := by
  cases parse with
  | fail msg => exact ⟨rfl, rfl, rfl, rfl, rfl, rfl, rfl⟩
  | ok platform =>
    cases pipe with
    | cloneFail msg => exact ⟨rfl, rfl, rfl, rfl, rfl, rfl, rfl⟩
    | fetchCmdFail msg => exact ⟨rfl, rfl, rfl, rfl, rfl, rfl, rfl⟩
    | otherFail msg => exact ⟨rfl, rfl, rfl, rfl, rfl, rfl, rfl⟩
    | ok items commits => simp [prFailure] at hfail

/-- Witness for C9 at a failing parse (invalid URL). -/
theorem get_pr_diff_error_contract_witness :
    prFailure (.fail "Invalid repository URL: not-a-url") (.ok [] []) = true ∧
    ((get_pr_diff (.fail "Invalid repository URL: not-a-url") (.ok [] [])
        "not-a-url" 5).error.isSome = true ∧
      (get_pr_diff (.fail "Invalid repository URL: not-a-url") (.ok [] [])
        "not-a-url" 5).diff = "" ∧
      (get_pr_diff (.fail "Invalid repository URL: not-a-url") (.ok [] [])
        "not-a-url" 5).files_changed = [] ∧
      (get_pr_diff (.fail "Invalid repository URL: not-a-url") (.ok [] [])
        "not-a-url" 5).commits = [] ∧
      (get_pr_diff (.fail "Invalid repository URL: not-a-url") (.ok [] [])
        "not-a-url" 5).stats = { additions := 0, deletions := 0, files := 0 } ∧
      (get_pr_diff (.fail "Invalid repository URL: not-a-url") (.ok [] [])
        "not-a-url" 5).pr_id = 5 ∧
      (get_pr_diff (.fail "Invalid repository URL: not-a-url") (.ok [] [])
        "not-a-url" 5).repo_url = "not-a-url") := by
  exact ⟨rfl, get_pr_diff_error_contract (.fail "Invalid repository URL: not-a-url")
    (.ok [] []) "not-a-url" 5 rfl⟩

end CodeF

/-! ## Data Preparation (`tools/data_preparation.py`)

Embedding of `DataPreparationAgent._analyze_directory_structure`: one
`os.walk` in which, at every visited directory, the child-directory count,
child-file count and child-directory names (including names from the ignore
set) are recorded BEFORE the ignore-set pruning is applied to `dirs`, and
only non-ignored child directories are descended into. -/

namespace DataPrep

/-- Set `self.common_ignore_dirs`. -/
def common_ignore_dirs : List String :=
  [".git", ".svn", ".hg",
   "__pycache__", ".pytest_cache",
   "node_modules", "npm_modules",
   "venv", "env", ".venv", ".env",
   "build", "dist", "target", "out",
   ".idea", ".vscode", ".vs",
   "bin", "obj", "debug", "release"]

/-- Dataclass `DirectoryStructure`. -/
structure DirectoryStructure where
  total_directories : Nat
  total_files : Nat
  max_depth : Nat
  common_directories : List String
  ignored_directories : List String
deriving DecidableEq

/-- Accumulated walk state: directory/file counts, maximum visited depth,
collected directory names (the `dir_names` set, as an occurrence list), and
the ignored-name occurrences. -/
structure WalkAcc where
  dirs : Nat
  files : Nat
  maxDepth : Nat
  names : List String
  ignored : List String
deriving DecidableEq

def accAdd (a b : WalkAcc) : WalkAcc :=
  { dirs := a.dirs + b.dirs
    files := a.files + b.files
    maxDepth := max a.maxDepth b.maxDepth
    names := a.names ++ b.names
    ignored := a.ignored ++ b.ignored }

def accZero : WalkAcc :=
  { dirs := 0, files := 0, maxDepth := 0, names := [], ignored := [] }

/-- Names of the directory children of one level. -/
def levelDirNames : FSForest → List String
  | .fnil => []
  | .fcons (.dir d _) ts => d :: levelDirNames ts
  | .fcons (.file _ _ _) ts => levelDirNames ts

/-- Number of file children of one level. -/
def levelFileCount : FSForest → Nat
  | .fnil => 0
  | .fcons (.file _ _ _) ts => levelFileCount ts + 1
  | .fcons (.dir _ _) ts => levelFileCount ts

mutual
/-- Visit one directory node whose relative depth is `k` (0 for the walk
root, whose `relpath` is `'.'` and contributes no depth): count and collect
the children before pruning, then descend into the non-ignored directory
children. -/
def dsT (k : Nat) : FSTree → WalkAcc
  | .file _ _ _ => accZero
  | .dir _ cs =>
    { dirs := (levelDirNames cs).length + (dsF (k + 1) cs).dirs
      files := levelFileCount cs + (dsF (k + 1) cs).files
      maxDepth := max k (dsF (k + 1) cs).maxDepth
      names := levelDirNames cs ++ (dsF (k + 1) cs).names
      ignored := (levelDirNames cs).filter (fun d => common_ignore_dirs.contains d)
        ++ (dsF (k + 1) cs).ignored }
/-- Descend into the directory children at depth `k`, skipping ignored
names (`dirs[:] = [d for d in dirs if d not in self.common_ignore_dirs]`). -/
def dsF (k : Nat) : FSForest → WalkAcc
  | .fnil => accZero
  | .fcons (.dir d cs) ts =>
    accAdd (if common_ignore_dirs.contains d then accZero else dsT k (.dir d cs))
      (dsF k ts)
  | .fcons (.file _ _ _) ts => dsF k ts
end

/-- Embeds `_analyze_directory_structure(path)`: totals, maximum depth, the first 20
sorted distinct directory names (`sorted(list(dir_names))[:20]`), and the
de-duplicated ignored names (`list(set(ignored_dirs))`, unspecified order
modelled as first occurrence). -/
def analyze_directory_structure (t : FSTree) : DirectoryStructure :=
  let acc := dsT 0 t
  { total_directories := acc.dirs
    total_files := acc.files
    max_depth := acc.maxDepth
    common_directories := (sortStrings (dedupKeepFirst acc.names)).take 20
    ignored_directories := dedupKeepFirst acc.ignored }

/-- Claim C10 (amended).  Adding a directory whose name is in the ignore set
(with arbitrary contents) to a tree still counts that directory in
`total_directories` (exactly +1) and records its name among the collected
directory names and in `ignored_directories`, while its contents contribute
nothing to `total_files`; `common_directories` is the first-20 cut of the
sorted distinct collected names, so the ignored name appears there only when
it falls within that cut. -/
theorem analyze_directory_structure_ignored_dir (root d : String)
    (sub cs : FSForest) (hd : common_ignore_dirs.contains d = true) :
    (analyze_directory_structure (.dir root (.fcons (.dir d sub) cs))).total_directories
        = (analyze_directory_structure (.dir root cs)).total_directories + 1 ∧
    (analyze_directory_structure (.dir root (.fcons (.dir d sub) cs))).total_files
        = (analyze_directory_structure (.dir root cs)).total_files ∧
    (dsT 0 (.dir root (.fcons (.dir d sub) cs))).names
        = d :: (dsT 0 (.dir root cs)).names ∧
    d ∈ (analyze_directory_structure (.dir root (.fcons (.dir d sub) cs))).ignored_directories ∧
    (analyze_directory_structure (.dir root (.fcons (.dir d sub) cs))).common_directories
        = (sortStrings (dedupKeepFirst (d :: (dsT 0 (.dir root cs)).names))).take 20 := by
  have hbig : dsT 0 (.dir root (.fcons (.dir d sub) cs))
      = { dirs := (dsT 0 (.dir root cs)).dirs + 1
          files := (dsT 0 (.dir root cs)).files
          maxDepth := (dsT 0 (.dir root cs)).maxDepth
          names := d :: (dsT 0 (.dir root cs)).names
          ignored := d :: (dsT 0 (.dir root cs)).ignored } := by
    simp only [dsT, dsF, levelDirNames, levelFileCount, hd, if_true, accAdd, accZero]
    simp only [WalkAcc.mk.injEq]
    refine ⟨?_, ?_, ?_, ?_, ?_⟩
    · simp only [List.length_cons]
      omega
    · omega
    · simp [Nat.zero_max]
    · simp
    · have hmem : d ∈ common_ignore_dirs := by
        have hx := hd
        simp at hx
        exact hx
      simp [List.filter_cons, hmem]
  refine ⟨?_, ?_, ?_, ?_, ?_⟩
  · show (dsT 0 (.dir root (.fcons (.dir d sub) cs))).dirs
        = (dsT 0 (.dir root cs)).dirs + 1
    rw [hbig]
  · show (dsT 0 (.dir root (.fcons (.dir d sub) cs))).files
        = (dsT 0 (.dir root cs)).files
    rw [hbig]
  · rw [hbig]
  · show d ∈ dedupKeepFirst (dsT 0 (.dir root (.fcons (.dir d sub) cs))).ignored
    rw [hbig]
    exact (mem_dedupKeepFirst d _).mpr (List.mem_cons_self d _)
  · show (sortStrings (dedupKeepFirst
        (dsT 0 (.dir root (.fcons (.dir d sub) cs))).names)).take 20
      = (sortStrings (dedupKeepFirst (d :: (dsT 0 (.dir root cs)).names))).take 20
    rw [hbig]

/-- Witness for C10's amended theorem: a `node_modules` directory containing
one file, next to a `src` directory. -/
theorem analyze_directory_structure_ignored_dir_witness :
    common_ignore_dirs.contains "node_modules" = true ∧
    ((analyze_directory_structure (.dir "repo" (.fcons
          (.dir "node_modules" (FSForest.ofList [FSTree.file "x.js" 1 1]))
          (FSForest.ofList [FSTree.dir "src" FSForest.fnil])))).total_directories
        = (analyze_directory_structure (.dir "repo"
            (FSForest.ofList [FSTree.dir "src" FSForest.fnil]))).total_directories + 1 ∧
      (analyze_directory_structure (.dir "repo" (.fcons
          (.dir "node_modules" (FSForest.ofList [FSTree.file "x.js" 1 1]))
          (FSForest.ofList [FSTree.dir "src" FSForest.fnil])))).total_files
        = (analyze_directory_structure (.dir "repo"
            (FSForest.ofList [FSTree.dir "src" FSForest.fnil]))).total_files ∧
      (dsT 0 (.dir "repo" (.fcons
          (.dir "node_modules" (FSForest.ofList [FSTree.file "x.js" 1 1]))
          (FSForest.ofList [FSTree.dir "src" FSForest.fnil])))).names
        = "node_modules" :: (dsT 0 (.dir "repo"
            (FSForest.ofList [FSTree.dir "src" FSForest.fnil]))).names ∧
      "node_modules" ∈ (analyze_directory_structure (.dir "repo" (.fcons
          (.dir "node_modules" (FSForest.ofList [FSTree.file "x.js" 1 1]))
          (FSForest.ofList [FSTree.dir "src" FSForest.fnil])))).ignored_directories ∧
      (analyze_directory_structure (.dir "repo" (.fcons
          (.dir "node_modules" (FSForest.ofList [FSTree.file "x.js" 1 1]))
          (FSForest.ofList [FSTree.dir "src" FSForest.fnil])))).common_directories
        = (sortStrings (dedupKeepFirst ("node_modules" :: (dsT 0 (.dir "repo"
            (FSForest.ofList [FSTree.dir "src" FSForest.fnil]))).names))).take 20) := by
  exact ⟨by decide, analyze_directory_structure_ignored_dir "repo" "node_modules"
    (FSForest.ofList [FSTree.file "x.js" 1 1])
    (FSForest.ofList [FSTree.dir "src" FSForest.fnil]) (by decide)⟩

/-- A tree whose root holds an ignored `node_modules` directory plus twenty
alphabetically earlier directories. -/
def ignoredDirTree : FSTree :=
  .dir "repo" (FSForest.ofList
    [.dir "node_modules" (FSForest.ofList [FSTree.file "x.js" 1 1]),
     .dir "a01" .fnil, .dir "a02" .fnil, .dir "a03" .fnil, .dir "a04" .fnil,
     .dir "a05" .fnil, .dir "a06" .fnil, .dir "a07" .fnil, .dir "a08" .fnil,
     .dir "a09" .fnil, .dir "a10" .fnil, .dir "a11" .fnil, .dir "a12" .fnil,
     .dir "a13" .fnil, .dir "a14" .fnil, .dir "a15" .fnil, .dir "a16" .fnil,
     .dir "a17" .fnil, .dir "a18" .fnil, .dir "a19" .fnil, .dir "a20" .fnil])

/-- Claim C10, counterexample to the claim as stated: `node_modules` is
counted in `total_directories` (21 in all) but its name is NOT included in
`common_directories`, because `common_directories` keeps only the first 20
sorted names and twenty directories sort before it. -/
theorem common_directories_counterexample :
    common_ignore_dirs.contains "node_modules" = true ∧
    (analyze_directory_structure ignoredDirTree).total_directories = 21 ∧
    "node_modules" ∉ (analyze_directory_structure ignoredDirTree).common_directories := by
  exact ⟨by decide, by decide, by decide⟩

end DataPrep
